import Mathlib

/-! Verification of the stereo processing module of machine-vision-acquisition
(`src/machine_vision_acquisition_python/process/stereo/shared.py`).

Scalar disparity values are modelled by `FVal`: IEEE-754 floating point
idealised to exact rationals plus the sentinels +inf, -inf and NaN (rounding
and signed zero are not modelled).  Camera geometry is modelled over an
arbitrary field, instantiated at ℚ (for executable witnesses) and at ℝ (for
the square root in `baseline_mm`). -/

/-- Floating-point value model: an exact rational or one of the IEEE
sentinels +inf, -inf, NaN. -/
inductive FVal : Type
  | fin (q : ℚ)
  | pinf
  | ninf
  | nan
deriving DecidableEq

/-- IEEE equality (`==` in numpy): NaN is unequal to everything, each
infinity is equal to itself. -/
def feq : FVal → FVal → Bool
  | .fin p, .fin q => decide (p = q)
  | .pinf, .pinf => true
  | .ninf, .ninf => true
  | _, _ => false

/-- IEEE inequality (`!=` in numpy): the negation of `feq`; in particular
`fne nan nan = true`, which is how the source detects NaN. -/
def fne (a b : FVal) : Bool := !(feq a b)

/-- IEEE strict less-than: false whenever either side is NaN. -/
def flt : FVal → FVal → Bool
  | .fin p, .fin q => decide (p < q)
  | .fin _, .pinf => true
  | .ninf, .fin _ => true
  | .ninf, .pinf => true
  | _, _ => false

/-- IEEE less-or-equal: false whenever either side is NaN. -/
def fle (a b : FVal) : Bool := flt a b || feq a b

/-- IEEE negation. -/
def fneg : FVal → FVal
  | .fin q => .fin (-q)
  | .pinf => .ninf
  | .ninf => .pinf
  | .nan => .nan

/-- IEEE addition: NaN propagates, opposite infinities give NaN. -/
def fadd : FVal → FVal → FVal
  | .nan, _ => .nan
  | _, .nan => .nan
  | .pinf, .ninf => .nan
  | .ninf, .pinf => .nan
  | .pinf, _ => .pinf
  | _, .pinf => .pinf
  | .ninf, _ => .ninf
  | _, .ninf => .ninf
  | .fin p, .fin q => .fin (p + q)

/-- IEEE subtraction. -/
def fsub (a b : FVal) : FVal := fadd a (fneg b)

/-- IEEE multiplication: NaN propagates, infinity times zero is NaN. -/
def fmul : FVal → FVal → FVal
  | .nan, _ => .nan
  | _, .nan => .nan
  | .fin p, .fin q => .fin (p * q)
  | .pinf, .pinf => .pinf
  | .pinf, .ninf => .ninf
  | .ninf, .pinf => .ninf
  | .ninf, .ninf => .pinf
  | .pinf, .fin q => if q = 0 then .nan else if 0 < q then .pinf else .ninf
  | .fin p, .pinf => if p = 0 then .nan else if 0 < p then .pinf else .ninf
  | .ninf, .fin q => if q = 0 then .nan else if 0 < q then .ninf else .pinf
  | .fin p, .ninf => if p = 0 then .nan else if 0 < p then .ninf else .pinf

/-- IEEE division (signed zero not modelled: a zero divisor counts as +0). -/
def fdiv : FVal → FVal → FVal
  | .nan, _ => .nan
  | _, .nan => .nan
  | .pinf, .pinf => .nan
  | .pinf, .ninf => .nan
  | .ninf, .pinf => .nan
  | .ninf, .ninf => .nan
  | .fin _, .pinf => .fin 0
  | .fin _, .ninf => .fin 0
  | .pinf, .fin q => if 0 ≤ q then .pinf else .ninf
  | .ninf, .fin q => if 0 ≤ q then .ninf else .pinf
  | .fin p, .fin q =>
      if q = 0 then (if p = 0 then .nan else if 0 < p then .pinf else .ninf)
      else .fin (p / q)

/-- numpy `np.maximum` on two scalars: NaN propagates. -/
def fmax : FVal → FVal → FVal
  | .nan, _ => .nan
  | _, .nan => .nan
  | .pinf, _ => .pinf
  | _, .pinf => .pinf
  | .ninf, b => b
  | a, .ninf => a
  | .fin p, .fin q => .fin (max p q)

/-- numpy `np.minimum` on two scalars: NaN propagates. -/
def fmin : FVal → FVal → FVal
  | .nan, _ => .nan
  | _, .nan => .nan
  | .ninf, _ => .ninf
  | _, .ninf => .ninf
  | .pinf, b => b
  | a, .pinf => a
  | .fin p, .fin q => .fin (min p q)

/-- numpy `ndarray.max()`: a reduction with `np.maximum` over the elements,
raising on an empty array. -/
def amax : List FVal → Except String FVal
  | [] => .error ("zero-size array to reduction operation maximum")
  | h :: t => .ok (t.foldl fmax h)

/-- numpy `ndarray.min()`: a reduction with `np.minimum` over the elements,
raising on an empty array. -/
def amin : List FVal → Except String FVal
  | [] => .error ("zero-size array to reduction operation minimum")
  | h :: t => .ok (t.foldl fmin h)

/-- Truncation toward zero, as in a C float-to-integer conversion. -/
def ratTrunc (q : ℚ) : ℤ := if 0 ≤ q then ⌊q⌋ else ⌈q⌉

/-- numpy `.astype(np.uint16)` applied to a float scalar: C conversion,
wrapping modulo 2^16 after truncation (the behaviour on the targeted
platforms); converting a sentinel is undefined in C and modelled as 0. -/
def castU16 : FVal → ℕ
  | .fin q => ((ratTrunc q) % 65536).toNat
  | _ => 0

/-- numpy `.astype(np.uint8)` applied to a float scalar, as `castU16`. -/
def castU8 : FVal → ℕ
  | .fin q => ((ratTrunc q) % 256).toNat
  | _ => 0

/-- Pixelwise invalid mask of the normalisation routines:
`np.logical_or(disparity == np.inf, disparity != disparity)`, i.e. +inf or
NaN (note: -inf is not masked by the source). -/
def invalidPix (x : FVal) : Bool := feq x .pinf || fne x x

/-- Embedding of the static method `StereoProcessor.normalise_disparity_16b`:
take the maximum over the pixels that are not masked as invalid (raising on
an empty selection), clamp a non-positive maximum to 1, then map every pixel
through `(x / old_max * 65535).astype(np.uint16)`. -/
def normalise_disparity_16b (disparity : List FVal) : Except String (List ℕ) :=
  match amax (disparity.filter fun x => !(invalidPix x)) with
  | .error e => .error e
  | .ok m =>
    let old_max := if fle m (.fin 0) then FVal.fin 1 else m
    .ok (disparity.map fun x => castU16 (fmul (fdiv x old_max) (.fin 65535)))

/-- Embedding of the static method `StereoProcessor.normalise_disparity_8b`:
identical to the 16-bit variant with 255 and `np.uint8`. -/
def normalise_disparity_8b (disparity : List FVal) : Except String (List ℕ) :=
  match amax (disparity.filter fun x => !(invalidPix x)) with
  | .error e => .error e
  | .ok m =>
    let old_max := if fle m (.fin 0) then FVal.fin 1 else m
    .ok (disparity.map fun x => castU8 (fmul (fdiv x old_max) (.fin 255)))

/-- Embedding of the static method `StereoProcessor.shift_disp_down`:
return the input unchanged when `disparity.max() <= 0`; otherwise take the
minimum over the non-zero pixels, subtract `(non_zero_min + 1)` everywhere
and clamp negative results to 0. -/
def shift_disp_down (disparity : List FVal) : Except String (List FVal) :=
  match amax disparity with
  | .error e => .error e
  | .ok m =>
    if fle m (.fin 0) then .ok disparity
    else
      match amin (disparity.filter fun x => fne x (.fin 0)) with
      | .error e => .error e
      | .ok non_zero_min =>
        let disparity_false := disparity.map fun x => fsub x (fadd non_zero_min (.fin 1))
        .ok (disparity_false.map fun x => if flt x (.fin 0) then .fin 0 else x)

/-- Maximum of a list of rationals, 0 on the empty list (only used on
non-empty lists). -/
def listMaxQ : List ℚ → ℚ
  | [] => 0
  | h :: t => t.foldl max h

/-- Minimum of a list of rationals, 0 on the empty list (only used on
non-empty lists). -/
def listMinQ : List ℚ → ℚ
  | [] => 0
  | h :: t => t.foldl min h

/-- The finite (valid) pixel values of a disparity map, in order. -/
def finiteVals (l : List FVal) : List ℚ :=
  l.filterMap fun x => match x with | .fin q => some q | _ => none

/-- Scaling of a rational into an unsigned 16-bit pixel: truncation toward
zero then wraparound modulo 2^16 (claim-side mirror of `castU16`). -/
def u16ofRat (r : ℚ) : ℕ := ((ratTrunc r) % 65536).toNat

/-- Formalisation of claim C8's description of `shift_disp_down` on maps of
finite values: no-op when the maximum is ≤ 0, otherwise subtract
`(min_positive + 1)` where `min_positive` is the minimum strictly-positive
value, clamping negative results to 0. -/
def shiftDispDownClaimed (l : List ℚ) : List ℚ :=
  if listMaxQ l ≤ 0 then l
  else
    let min_positive := listMinQ (l.filter fun y => decide (0 < y))
    l.map fun x => if x - (min_positive + 1) < 0 then 0 else x - (min_positive + 1)

/-- Amended description of `shift_disp_down` on maps of finite values: the
subtrahend is built from the minimum non-zero value (which may be negative),
not the minimum strictly-positive value. -/
def shiftDispDownQ (l : List ℚ) : List ℚ :=
  if listMaxQ l ≤ 0 then l
  else
    let m := listMinQ (l.filter fun y => decide (y ≠ 0))
    l.map fun x => if x - (m + 1) < 0 then 0 else x - (m + 1)

/-- Modelled from the spec: the camera projection model tag of the external
calibration record (spec: enum Pinhole | Fisheye, named `CameraModel.OpenCV`
and `CameraModel.OpenCVFisheye` where the source uses them); a further
constructor stands for any other tag the loader might carry (the spec's
"third enum value"). -/
inductive CameraModel : Type
  | OpenCV
  | OpenCVFisheye
  | other (tag : String)
deriving DecidableEq

/-- Modelled from the spec: the external per-camera calibration record,
consumed by the core only through these fields — 3×3 intrinsic matrix,
distortion coefficients, pose rotation/translation vectors, image size and
projection model tag. -/
structure Calibration (α : Type) where
  cameraMatrix : Matrix (Fin 3) (Fin 3) α
  distCoeffs : List α
  rvec : Fin 3 → α
  tvec : Fin 3 → α
  image_width : ℕ
  image_height : ℕ
  camera_model : CameraModel

/-- Modelled from the spec: the derived scalar `focallength_px` of the
external calibration record is fx, the (0,0) entry of the intrinsic
matrix. -/
def Calibration.focallength_px {α : Type} (c : Calibration α) : α :=
  c.cameraMatrix 0 0

/-- Embedding of the class `StereoParams`, the outputs of `cv2.stereoRectify`
(the matrices are opaque external data to this verification; the valid ROIs
are the optional tuples this module inspects). -/
structure StereoParams (α : Type) where
  R1 : Matrix (Fin 3) (Fin 3) α
  R2 : Matrix (Fin 3) (Fin 3) α
  P1 : Matrix (Fin 3) (Fin 4) α
  P2 : Matrix (Fin 3) (Fin 4) α
  Q : Matrix (Fin 4) (Fin 4) α
  validROI1 : Option (List ℕ)
  validROI2 : Option (List ℕ)

/-- Result of the external `cv2.fisheye.stereoRectify`, which returns only
five values — the fisheye path therefore stores no valid ROIs. -/
structure FisheyeRectifyResult (α : Type) where
  R1 : Matrix (Fin 3) (Fin 3) α
  R2 : Matrix (Fin 3) (Fin 3) α
  P1 : Matrix (Fin 3) (Fin 4) α
  P2 : Matrix (Fin 3) (Fin 4) α
  Q : Matrix (Fin 4) (Fin 4) α

/-- Construction-time errors of `StereoProcessor.__init__`: the source
raises ValueError for a calibration mismatch (the spec's
ConfigMismatchError) and NotImplementedError for an unsupported camera
model (the spec's UnsupportedModelError). -/
inductive StereoInitError : Type
  | configMismatch
  | unsupportedModel
deriving DecidableEq

/-- State of a successfully constructed `StereoProcessor`: the stored
calibrations, image size and model tag, the relative pose `R`, `T` derived
by `init_stereo_params`, and the rectification parameters. -/
structure StereoState (α : Type) where
  calibration_left : Calibration α
  calibration_right : Calibration α
  image_size : ℕ × ℕ
  camera_model : CameraModel
  R : Matrix (Fin 3) (Fin 3) α
  T : Fin 3 → α
  params : StereoParams α

/-- Matrix inverse as computed by `np.linalg.inv` on a 3×3 matrix, written
with the adjugate so it is executable over ℚ. -/
def matInv {α : Type} [Field α] (A : Matrix (Fin 3) (Fin 3) α) :
    Matrix (Fin 3) (Fin 3) α :=
  A.det⁻¹ • A.adjugate

/-- Embedding of `StereoProcessor.__init__` together with
`init_stereo_params`: check that the two calibrations agree on image size
and camera model, derive the relative pose, then dispatch on the camera
model.  The external collaborators are parameters: `rodrigues` stands for
`cv2.Rodrigues` (axis-angle vector to rotation matrix) and the two rectify
results stand for the outputs of `cv2.stereoRectify` /
`cv2.fisheye.stereoRectify` (the fisheye variant yields no valid ROIs). -/
def mkStereoProcessor {α : Type} [Field α]
    (rodrigues : (Fin 3 → α) → Matrix (Fin 3) (Fin 3) α)
    (stereoRectifyResult : StereoParams α)
    (fisheyeRectifyResult : FisheyeRectifyResult α)
    (calibration_left calibration_right : Calibration α) :
    Except StereoInitError (StereoState α) :=
  if calibration_left.image_width ≠ calibration_right.image_width
      ∨ calibration_left.image_height ≠ calibration_right.image_height
      ∨ calibration_left.camera_model ≠ calibration_right.camera_model then
    .error .configMismatch
  else
    let image_size := (calibration_left.image_width, calibration_left.image_height)
    let camera_model := calibration_left.camera_model
    let r1 := rodrigues calibration_left.rvec
    let r2 := rodrigues calibration_right.rvec
    let R := matInv r1 * r2
    let T := r1.transpose.mulVec calibration_right.tvec
      - r1.transpose.mulVec calibration_left.tvec
    match camera_model with
    | .OpenCV =>
        .ok ⟨calibration_left, calibration_right, image_size, camera_model,
          R, T, stereoRectifyResult⟩
    | .OpenCVFisheye =>
        .ok ⟨calibration_left, calibration_right, image_size, camera_model,
          R, T,
          ⟨fisheyeRectifyResult.R1, fisheyeRectifyResult.R2,
            fisheyeRectifyResult.P1, fisheyeRectifyResult.P2,
            fisheyeRectifyResult.Q, none, none⟩⟩
    | .other _ => .error .unsupportedModel

/-- numpy `np.zeros(shape, dtype)` as a function-valued image. -/
def npZeros (H W : ℕ) {α : Type} [Zero α] : Fin H → Fin W → α :=
  fun _ _ => 0

/-- numpy basic slice assignment `dst[y:y+h, x:x+w] = src[y:y+h, x:x+w]` for
non-negative bounds (out-of-range parts of the slice are clipped, which the
`Fin` indices provide). -/
def sliceAssign {H W : ℕ} {α : Type} (dst src : Fin H → Fin W → α)
    (y h x w : ℕ) : Fin H → Fin W → α :=
  fun i j =>
    if y ≤ i.val ∧ i.val < y + h ∧ x ≤ j.val ∧ j.val < x + w then src i j
    else dst i j

/-- Embedding of `StereoProcessor.apply_roi_to_disparity`: start from a
zero image, raise if `params.validROI1` is absent or does not have exactly
four components, otherwise copy the ROI rectangle from the input. -/
def StereoState.apply_roi_to_disparity {α : Type} [Zero α] (st : StereoState α)
    {H W : ℕ} (disparity : Fin H → Fin W → α) :
    Except String (Fin H → Fin W → α) :=
  match st.params.validROI1 with
  | none => .error ("Invalid")
  | some [x, y, w, h] => .ok (sliceAssign (npZeros H W) disparity y h x w)
  | some _ => .error ("Invalid")

/-- Euclidean norm of a 3-vector, `np.linalg.norm`. -/
noncomputable def euclNorm3 (v : Fin 3 → ℝ) : ℝ :=
  Real.sqrt (v 0 ^ 2 + v 1 ^ 2 + v 2 ^ 2)

/-- Embedding of the property `StereoProcessor.baseline_mm`: the norm of the
derived relative translation. -/
noncomputable def StereoState.baseline_mm (st : StereoState ℝ) : ℝ :=
  euclNorm3 st.T

/-- Embedding of `StereoProcessor.disparity_to_depth_mm`:
`baseline_mm * focallength_px / (disparity_value + doffs)` with `doffs = 0`
(image centres aligned by the CALIB_ZERO_DISPARITY rectification flag). -/
noncomputable def StereoState.disparity_to_depth_mm (st : StereoState ℝ)
    (disparity_value : ℝ) : ℝ :=
  let focallength_px := st.calibration_left.focallength_px
  let doffs : ℝ := 0
  let baseline_mm := euclNorm3 st.T
  baseline_mm * focallength_px / (disparity_value + doffs)

/-- Grouping of a flat numeric buffer into consecutive (u, v, d) triples;
this is the data layout `reshape(-1, 1, 3)` followed by `squeeze` produces
when the total size is divisible by 3. -/
def chunk3 {α : Type} : List α → List (α × α × α)
  | u :: v :: d :: rest => (u, v, d) :: chunk3 rest
  | _ => []

/-- Embedding of `StereoProcessor.points_px_to_3d_world_space`.  The input
array is modelled by its flattened data; `reshape(-1, 1, 3)` succeeds
exactly when the total size is divisible by 3 (otherwise numpy raises, which
is the only reachable shape error — after the reshape the explicit Nx3 check
cannot fire).  Each (u, v, d) triple is mapped to
`((u - cx)/fx * z, (v - cy)/fy * z, z)` with `z = disparity_to_depth_mm d`,
using the left camera's intrinsics. -/
noncomputable def StereoState.points_px_to_3d_world_space (st : StereoState ℝ)
    (points_px : List ℝ) : Except String (List (ℝ × ℝ × ℝ)) :=
  if points_px.length % 3 = 0 then
    let f_x := st.calibration_left.cameraMatrix 0 0
    let f_y := st.calibration_left.cameraMatrix 1 1
    let c_x := st.calibration_left.cameraMatrix 0 2
    let c_y := st.calibration_left.cameraMatrix 1 2
    .ok ((chunk3 points_px).map fun point =>
      let z := st.disparity_to_depth_mm point.2.2
      ((point.1 - c_x) / f_x * z, (point.2.1 - c_y) / f_y * z, z))
  else .error ("cannot reshape array into shape (-1,1,3)")

/-- Identity-valued stand-in for `cv2.Rodrigues`, used by the executable
witnesses. -/
def rodriguesId : (Fin 3 → ℚ) → Matrix (Fin 3) (Fin 3) ℚ := fun _ => 1

/-- Concrete rectification parameters for witnesses. -/
def params0 : StereoParams ℚ :=
  ⟨1, 1, 0, 0, 1, some [0, 0, 320, 240], some [0, 0, 320, 240]⟩

/-- Concrete fisheye rectification result for witnesses. -/
def fisheye0 : FisheyeRectifyResult ℚ := ⟨1, 1, 0, 0, 1⟩

/-- Concrete left calibration for witnesses. -/
def calibL0 : Calibration ℚ :=
  ⟨1, [], ![0, 0, 0], ![0, 0, 0], 640, 480, .OpenCV⟩

/-- Concrete right calibration for witnesses: pure 100mm horizontal
translation, identical rotation. -/
def calibR0 : Calibration ℚ :=
  ⟨1, [], ![0, 0, 0], ![100, 0, 0], 640, 480, .OpenCV⟩

/-- Concrete right calibration with a mismatched image width. -/
def calibBad0 : Calibration ℚ :=
  ⟨1, [], ![0, 0, 0], ![100, 0, 0], 800, 480, .OpenCV⟩

/-- Concrete left calibration carrying an unsupported camera model tag. -/
def calibGenL0 : Calibration ℚ :=
  ⟨1, [], ![0, 0, 0], ![0, 0, 0], 640, 480, .other ("Generic")⟩

/-- Concrete right calibration carrying the same unsupported tag. -/
def calibGenR0 : Calibration ℚ :=
  ⟨1, [], ![0, 0, 0], ![100, 0, 0], 640, 480, .other ("Generic")⟩

/-- The state `mkStereoProcessor` builds from the concrete pair above. -/
def state0 : StereoState ℚ :=
  ⟨calibL0, calibR0, (640, 480), .OpenCV,
    matInv (rodriguesId calibL0.rvec) * rodriguesId calibR0.rvec,
    (rodriguesId calibL0.rvec).transpose.mulVec calibR0.tvec
      - (rodriguesId calibL0.rvec).transpose.mulVec calibL0.tvec,
    params0⟩

/-- A concrete stereo state whose stored `validROI1` is the 1×1 rectangle at
the origin of a 2×2 image. -/
def stateRoi0 : StereoState ℚ :=
  ⟨calibL0, calibR0, (640, 480), .OpenCV, 1, ![100, 0, 0],
    ⟨1, 1, 0, 0, 1, some [0, 0, 1, 1], none⟩⟩

/-- A concrete 2×2 disparity image for the ROI witness. -/
def disp0 : Fin 2 → Fin 2 → ℚ := fun i j => (i.val * 2 + j.val + 1 : ℚ)

/-- Concrete left/right calibration over ℝ for the projection witness. -/
noncomputable def calibLR : Calibration ℝ :=
  ⟨1, [], ![0, 0, 0], ![0, 0, 0], 640, 480, .OpenCV⟩

/-- Concrete stereo state over ℝ: identity intrinsics, 100mm baseline along
the x axis. -/
noncomputable def stateR : StereoState ℝ :=
  ⟨calibLR, calibLR, (640, 480), .OpenCV, 1, ![100, 0, 0],
    ⟨1, 1, 0, 0, 1, some [0, 0, 320, 240], some [0, 0, 320, 240]⟩⟩

theorem matInv_eq_inv {α : Type} [Field α] (A : Matrix (Fin 3) (Fin 3) α) :
    matInv A = A⁻¹ := by
  rw [Matrix.inv_def, Ring.inverse_eq_inv']
  rfl

theorem fle_fin (a b : ℚ) : fle (.fin a) (.fin b) = decide (a ≤ b) := by
  rcases lt_trichotomy a b with h | h | h
  · simp [fle, flt, feq, h, le_of_lt h, ne_of_lt h]
  · subst h
    simp [fle, flt, feq]
  · simp [fle, flt, feq, not_lt.mpr h.le, h.ne', not_le.mpr h]

theorem foldl_fmax_map_fin (t : List ℚ) : ∀ c : ℚ,
    List.foldl fmax (.fin c) (t.map .fin) = .fin (t.foldl max c) := by
  induction t with
  | nil => intro c; rfl
  | cons a t ih =>
    intro c
    simp only [List.map_cons, List.foldl_cons]
    exact ih (max c a)

theorem foldl_fmin_map_fin (t : List ℚ) : ∀ c : ℚ,
    List.foldl fmin (.fin c) (t.map .fin) = .fin (t.foldl min c) := by
  induction t with
  | nil => intro c; rfl
  | cons a t ih =>
    intro c
    simp only [List.map_cons, List.foldl_cons]
    exact ih (min c a)

theorem amax_map_fin (l : List ℚ) (hl : l ≠ []) :
    amax (l.map .fin) = .ok (.fin (listMaxQ l)) := by
  obtain ⟨a, t, rfl⟩ := List.exists_cons_of_ne_nil hl
  simp only [List.map_cons, amax, listMaxQ]
  rw [foldl_fmax_map_fin]

theorem amin_map_fin (l : List ℚ) (hl : l ≠ []) :
    amin (l.map .fin) = .ok (.fin (listMinQ l)) := by
  obtain ⟨a, t, rfl⟩ := List.exists_cons_of_ne_nil hl
  simp only [List.map_cons, amin, listMinQ]
  rw [foldl_fmin_map_fin]

theorem foldl_max_mem (t : List ℚ) : ∀ c : ℚ, t.foldl max c = c ∨ t.foldl max c ∈ t := by
  induction t with
  | nil => intro c; left; rfl
  | cons a t ih =>
    intro c
    simp only [List.foldl_cons]
    rcases ih (max c a) with h | h
    · rcases max_choice c a with h2 | h2
      · left
        rw [h, h2]
      · right
        rw [h, h2]
        exact List.mem_cons_self a t
    · right
      exact List.mem_cons_of_mem a h

theorem foldl_min_mem (t : List ℚ) : ∀ c : ℚ, t.foldl min c = c ∨ t.foldl min c ∈ t := by
  induction t with
  | nil => intro c; left; rfl
  | cons a t ih =>
    intro c
    simp only [List.foldl_cons]
    rcases ih (min c a) with h | h
    · rcases min_choice c a with h2 | h2
      · left
        rw [h, h2]
      · right
        rw [h, h2]
        exact List.mem_cons_self a t
    · right
      exact List.mem_cons_of_mem a h

theorem listMaxQ_mem (l : List ℚ) (hl : l ≠ []) : listMaxQ l ∈ l := by
  obtain ⟨a, t, rfl⟩ := List.exists_cons_of_ne_nil hl
  simp only [listMaxQ]
  rcases foldl_max_mem t a with h | h
  · rw [h]
    exact List.mem_cons_self a t
  · exact List.mem_cons_of_mem a h

theorem listMinQ_mem (l : List ℚ) (hl : l ≠ []) : listMinQ l ∈ l := by
  obtain ⟨a, t, rfl⟩ := List.exists_cons_of_ne_nil hl
  simp only [listMinQ]
  rcases foldl_min_mem t a with h | h
  · rw [h]
    exact List.mem_cons_self a t
  · exact List.mem_cons_of_mem a h

theorem le_foldl_max (t : List ℚ) : ∀ c : ℚ,
    c ≤ t.foldl max c ∧ ∀ x ∈ t, x ≤ t.foldl max c := by
  induction t with
  | nil =>
    intro c
    exact ⟨le_refl c, by simp⟩
  | cons a t ih =>
    intro c
    obtain ⟨h1, h2⟩ := ih (max c a)
    simp only [List.foldl_cons]
    refine ⟨le_trans (le_max_left c a) h1, ?_⟩
    intro x hx
    rcases List.mem_cons.mp hx with rfl | hx
    · exact le_trans (le_max_right c x) h1
    · exact h2 x hx

theorem le_listMaxQ (l : List ℚ) (x : ℚ) (hx : x ∈ l) : x ≤ listMaxQ l := by
  cases l with
  | nil => cases hx
  | cons a t =>
    simp only [listMaxQ]
    rcases List.mem_cons.mp hx with rfl | hx
    · exact (le_foldl_max t x).1
    · exact (le_foldl_max t a).2 x hx

theorem invalidPix_fin (q : ℚ) : invalidPix (.fin q) = false := by
  simp [invalidPix, feq, fne]

theorem invalidPix_pinf : invalidPix .pinf = true := rfl

theorem invalidPix_ninf : invalidPix .ninf = false := rfl

theorem invalidPix_nan : invalidPix .nan = true := rfl

theorem finiteVals_validVals (l : List FVal) :
    finiteVals (l.filter fun x => !(invalidPix x)) = finiteVals l := by
  induction l with
  | nil => rfl
  | cons x t ih =>
    simp only [finiteVals] at ih ⊢
    cases x <;>
      simp [List.filter_cons, List.filterMap_cons, invalidPix_fin,
        invalidPix_pinf, invalidPix_ninf, invalidPix_nan, ih]

theorem foldl_fmax_fin_no_invalid (w : List FVal) : ∀ c : ℚ,
    (∀ y ∈ w, y ≠ .pinf ∧ y ≠ .nan) →
    List.foldl fmax (.fin c) w = .fin (List.foldl max c (finiteVals w)) := by
  induction w with
  | nil =>
    intro c _
    rfl
  | cons x t ih =>
    intro c hw
    have hx := hw x (List.mem_cons_self x t)
    have ht : ∀ y ∈ t, y ≠ FVal.pinf ∧ y ≠ FVal.nan := by
      intro y hy
      exact hw y (List.mem_cons_of_mem x hy)
    cases x with
    | fin q =>
      simp only [List.foldl_cons, finiteVals, List.filterMap_cons]
      simpa only [finiteVals] using ih (max c q) ht
    | ninf =>
      simp only [List.foldl_cons, finiteVals, List.filterMap_cons]
      simpa only [finiteVals] using ih c ht
    | pinf => exact absurd rfl hx.1
    | nan => exact absurd rfl hx.2

theorem foldl_fmax_ninf_no_invalid (w : List FVal)
    (hw : ∀ y ∈ w, y ≠ .pinf ∧ y ≠ .nan) :
    List.foldl fmax .ninf w =
      (match finiteVals w with
       | [] => FVal.ninf
       | c :: t => .fin (List.foldl max c t)) := by
  induction w with
  | nil => rfl
  | cons x t ih =>
    have hx := hw x (List.mem_cons_self x t)
    have ht : ∀ y ∈ t, y ≠ FVal.pinf ∧ y ≠ FVal.nan := by
      intro y hy
      exact hw y (List.mem_cons_of_mem x hy)
    cases x with
    | fin q =>
      simp only [List.foldl_cons, finiteVals, List.filterMap_cons]
      have := foldl_fmax_fin_no_invalid t q ht
      simp only [finiteVals] at this
      rw [show fmax .ninf (.fin q) = .fin q from rfl, this]
    | ninf =>
      simp only [List.foldl_cons, finiteVals, List.filterMap_cons]
      simpa only [finiteVals] using ih ht
    | pinf => exact absurd rfl hx.1
    | nan => exact absurd rfl hx.2

theorem amax_valid_eq (l : List FVal) (hfin : finiteVals l ≠ []) :
    amax (l.filter fun x => !(invalidPix x)) = .ok (.fin (listMaxQ (finiteVals l))) := by
  have hbridge := finiteVals_validVals l
  have hno : ∀ y ∈ (l.filter fun x => !(invalidPix x)), y ≠ FVal.pinf ∧ y ≠ FVal.nan := by
    intro y hy
    have hmem := List.of_mem_filter hy
    constructor
    · rintro rfl
      rw [invalidPix_pinf] at hmem
      exact absurd hmem (by simp)
    · rintro rfl
      rw [invalidPix_nan] at hmem
      exact absurd hmem (by simp)
  rcases hv : (l.filter fun x => !(invalidPix x)) with _ | ⟨h, t⟩
  · rw [hv] at hbridge
    exact absurd hbridge.symm (by simpa using hfin)
  · rw [hv] at hbridge hno
    have hnot : ∀ y ∈ t, y ≠ FVal.pinf ∧ y ≠ FVal.nan := by
      intro y hy
      exact hno y (List.mem_cons_of_mem h hy)
    have hnoh := hno h (List.mem_cons_self h t)
    cases h with
    | fin c =>
      simp only [amax, foldl_fmax_fin_no_invalid t c hnot]
      rw [← hbridge]
      simp only [finiteVals, List.filterMap_cons, listMaxQ]
    | ninf =>
      simp only [amax, foldl_fmax_ninf_no_invalid t hnot]
      have hfv : finiteVals l = finiteVals t := by
        rw [← hbridge]
        simp only [finiteVals, List.filterMap_cons]
      rw [hfv]
      rcases hft : finiteVals t with _ | ⟨c, t2⟩
      · rw [hfv, hft] at hfin
        exact absurd rfl hfin
      · simp only [listMaxQ]
    | pinf => exact absurd rfl hnoh.1
    | nan => exact absurd rfl hnoh.2

/-- C7: for every disparity map containing at least one valid (finite) pixel,
`normalise_disparity_16b` succeeds; the maximum it scales by is the maximum
finite value (the sentinels +inf, -inf and NaN do not contribute to it),
clamped to 1 when non-positive; every finite pixel `q` is scaled linearly to
the unsigned-16-bit truncation of `q / old_max * 65535`, and when the maximum
finite value is positive it maps to 65535. -/
theorem C7_normalise_16b_spec (l : List FVal) (hfin : finiteVals l ≠ []) :
    ∃ out, normalise_disparity_16b l = .ok out ∧
      out.length = l.length ∧
      (∀ x ∈ finiteVals l, x ≤ listMaxQ (finiteVals l)) ∧
      listMaxQ (finiteVals l) ∈ finiteVals l ∧
      (∀ (i : ℕ) (q : ℚ), l[i]? = some (.fin q) →
        out[i]? = some (u16ofRat (q /
          (if listMaxQ (finiteVals l) ≤ 0 then 1 else listMaxQ (finiteVals l)) * 65535))) ∧
      (0 < listMaxQ (finiteVals l) → ∀ i : ℕ,
        l[i]? = some (.fin (listMaxQ (finiteVals l))) → out[i]? = some 65535) := by
  have hamax := amax_valid_eq l hfin
  have heq : normalise_disparity_16b l =
      .ok (l.map fun x => castU16 (fmul (fdiv x
        (if fle (.fin (listMaxQ (finiteVals l))) (.fin 0) then FVal.fin 1
         else .fin (listMaxQ (finiteVals l)))) (.fin 65535))) := by
    simp only [normalise_disparity_16b, hamax]
  have hold : (if fle (.fin (listMaxQ (finiteVals l))) (.fin 0) then FVal.fin 1
      else .fin (listMaxQ (finiteVals l))) =
      .fin (if listMaxQ (finiteVals l) ≤ 0 then 1 else listMaxQ (finiteVals l)) := by
    rw [fle_fin]
    by_cases h : listMaxQ (finiteVals l) ≤ 0 <;> simp [h]
  have heffne : (if listMaxQ (finiteVals l) ≤ 0 then (1 : ℚ)
      else listMaxQ (finiteVals l)) ≠ 0 := by
    by_cases h : listMaxQ (finiteVals l) ≤ 0
    · simp [h]
    · simp only [if_neg h]
      exact fun hc => h (le_of_eq hc)
  rw [hold] at heq
  refine ⟨_, heq, List.length_map l _, fun x hx => le_listMaxQ _ x hx,
    listMaxQ_mem _ hfin, ?_, ?_⟩
  · intro i q hq
    rw [List.getElem?_map, hq, Option.map_some']
    congr 1
    rw [show fdiv (.fin q)
        (.fin (if listMaxQ (finiteVals l) ≤ 0 then 1 else listMaxQ (finiteVals l))) =
        .fin (q / (if listMaxQ (finiteVals l) ≤ 0 then 1 else listMaxQ (finiteVals l)))
      from by simp [fdiv, heffne]]
    rfl
  · intro hpos i hq
    rw [List.getElem?_map, hq, Option.map_some']
    have heffM : (if listMaxQ (finiteVals l) ≤ 0 then (1 : ℚ)
        else listMaxQ (finiteVals l)) = listMaxQ (finiteVals l) := by
      simp [not_le.mpr hpos]
    congr 1
    rw [show fdiv (.fin (listMaxQ (finiteVals l)))
        (.fin (if listMaxQ (finiteVals l) ≤ 0 then 1 else listMaxQ (finiteVals l))) =
        .fin (listMaxQ (finiteVals l) /
          (if listMaxQ (finiteVals l) ≤ 0 then 1 else listMaxQ (finiteVals l)))
      from by simp [fdiv, heffne], heffM, div_self (ne_of_gt hpos)]
    norm_num [castU16, fmul, ratTrunc]
    decide

/-- Witness for C7: a concrete map holding finite pixels 2 and 1 together
with a +inf and a NaN sentinel. -/
theorem C7_normalise_16b_witness :
    ∃ out, normalise_disparity_16b [.fin 2, .pinf, .fin 1, .nan] = .ok out ∧
      out.length = [FVal.fin 2, .pinf, .fin 1, .nan].length ∧
      (∀ x ∈ finiteVals [FVal.fin 2, .pinf, .fin 1, .nan],
        x ≤ listMaxQ (finiteVals [FVal.fin 2, .pinf, .fin 1, .nan])) ∧
      listMaxQ (finiteVals [FVal.fin 2, .pinf, .fin 1, .nan]) ∈
        finiteVals [FVal.fin 2, .pinf, .fin 1, .nan] ∧
      (∀ (i : ℕ) (q : ℚ), [FVal.fin 2, .pinf, .fin 1, .nan][i]? = some (.fin q) →
        out[i]? = some (u16ofRat (q /
          (if listMaxQ (finiteVals [FVal.fin 2, .pinf, .fin 1, .nan]) ≤ 0 then 1
           else listMaxQ (finiteVals [FVal.fin 2, .pinf, .fin 1, .nan])) * 65535))) ∧
      (0 < listMaxQ (finiteVals [FVal.fin 2, .pinf, .fin 1, .nan]) → ∀ i : ℕ,
        [FVal.fin 2, .pinf, .fin 1, .nan][i]? =
          some (.fin (listMaxQ (finiteVals [FVal.fin 2, .pinf, .fin 1, .nan]))) →
        out[i]? = some 65535) :=
  C7_normalise_16b_spec [.fin 2, .pinf, .fin 1, .nan] (by decide)

/-- C10: for every disparity map whose pixels are all invalid sentinels
(+inf or NaN), the valid selection is empty and both normalisation routines
fail with an error instead of returning a normalised map. -/
theorem C10_all_invalid_errors (l : List FVal)
    (h : ∀ x ∈ l, x = FVal.pinf ∨ x = FVal.nan) :
    (∃ e, normalise_disparity_16b l = .error e) ∧
    (∃ e, normalise_disparity_8b l = .error e) := by
  have hfil : (l.filter fun x => !(invalidPix x)) = [] := by
    rw [List.filter_eq_nil_iff]
    intro a ha
    rcases h a ha with rfl | rfl <;> simp [invalidPix_pinf, invalidPix_nan]
  constructor
  · refine ⟨"zero-size array to reduction operation maximum", ?_⟩
    simp only [normalise_disparity_16b, hfil]
    rfl
  · refine ⟨"zero-size array to reduction operation maximum", ?_⟩
    simp only [normalise_disparity_8b, hfil]
    rfl

/-- Witness for C10: the all-invalid map `[+inf, NaN]`. -/
theorem C10_all_invalid_errors_witness :
    (∃ e, normalise_disparity_16b [.pinf, .nan] = .error e) ∧
    (∃ e, normalise_disparity_8b [.pinf, .nan] = .error e) :=
  C10_all_invalid_errors [.pinf, .nan] (by decide)

theorem FVal_fin_injective : Function.Injective FVal.fin := fun _ _ hab => FVal.fin.inj hab

theorem filter_fne_map_fin (l : List ℚ) :
    ((l.map FVal.fin).filter fun x => fne x (.fin 0)) =
      (l.filter fun y => decide (y ≠ 0)).map FVal.fin := by
  rw [List.filter_map]
  congr 1
  apply List.filter_congr
  intro y _
  simp [Function.comp, fne, feq]

theorem map_shift_step (l : List ℚ) (m : ℚ) :
    (((l.map FVal.fin).map fun x => fsub x (fadd (.fin m) (.fin 1))).map
        fun x => if flt x (.fin 0) then .fin 0 else x) =
      (l.map fun a => if a - (m + 1) < 0 then 0 else a - (m + 1)).map FVal.fin := by
  simp only [List.map_map]
  apply List.map_congr_left
  intro a _
  have h1 : fsub (.fin a) (fadd (.fin m) (.fin 1)) = .fin (a - (m + 1)) := by
    simp [fsub, fadd, fneg, sub_eq_add_neg]
  simp only [Function.comp_apply, h1]
  by_cases h : a - (m + 1) < 0 <;> simp [flt, h]

theorem filter_ne_zero_ne_nil (l : List ℚ) (hl : l ≠ []) (hpos : 0 < listMaxQ l) :
    (l.filter fun y => decide (y ≠ 0)) ≠ [] := by
  intro hc
  have hmem : listMaxQ l ∈ l.filter fun y => decide (y ≠ 0) := by
    rw [List.mem_filter]
    exact ⟨listMaxQ_mem l hl, by simp [ne_of_gt hpos]⟩
  rw [hc] at hmem
  cases hmem

theorem shift_disp_down_map_fin (l : List ℚ) (hl : l ≠ []) :
    shift_disp_down (l.map FVal.fin) = .ok ((shiftDispDownQ l).map FVal.fin) := by
  have hamax := amax_map_fin l hl
  by_cases hle : listMaxQ l ≤ 0
  · simp only [shift_disp_down, hamax, fle_fin, hle, decide_True, if_true, shiftDispDownQ,
      if_pos hle]
  · have hpos : 0 < listMaxQ l := not_le.mp hle
    have hfilne := filter_ne_zero_ne_nil l hl hpos
    have hamin := amin_map_fin (l.filter fun y => decide (y ≠ 0)) hfilne
    simp only [shift_disp_down, hamax, fle_fin, hle, decide_False, Bool.false_eq_true,
      if_false, filter_fne_map_fin, hamin]
    rw [map_shift_step]
    simp only [shiftDispDownQ, if_neg hle]

theorem shiftDispDownQ_ne_nil (l : List ℚ) (hl : l ≠ []) : shiftDispDownQ l ≠ [] := by
  by_cases h : listMaxQ l ≤ 0 <;> simp [shiftDispDownQ, h, hl]

theorem shiftDispDownQ_eq_self_iff (l : List ℚ) (hl : l ≠ []) :
    shiftDispDownQ l = l ↔ listMaxQ l ≤ 0 := by
  constructor
  · intro heq
    by_contra hle
    have hpos : 0 < listMaxQ l := not_le.mp hle
    have hfilne := filter_ne_zero_ne_nil l hl hpos
    have hmmem : listMinQ (l.filter fun y => decide (y ≠ 0)) ∈
        l.filter fun y => decide (y ≠ 0) := listMinQ_mem _ hfilne
    have hml : listMinQ (l.filter fun y => decide (y ≠ 0)) ∈ l :=
      (List.mem_filter.mp hmmem).1
    have hmne : listMinQ (l.filter fun y => decide (y ≠ 0)) ≠ 0 := by
      have h2 := (List.mem_filter.mp hmmem).2
      simpa using h2
    have hQ : shiftDispDownQ l = l.map fun x =>
        if x - (listMinQ (l.filter fun y => decide (y ≠ 0)) + 1) < 0 then 0
        else x - (listMinQ (l.filter fun y => decide (y ≠ 0)) + 1) := by
      simp only [shiftDispDownQ, if_neg hle]
    rw [hQ] at heq
    obtain ⟨i, hilt, hi⟩ := List.mem_iff_getElem.mp hml
    have h2 := congrArg (fun t => t[i]?) heq
    simp only [List.getElem?_map, List.getElem?_eq_getElem hilt, hi, Option.map_some'] at h2
    have h4 := Option.some.inj h2
    have h5 : listMinQ (l.filter fun y => decide (y ≠ 0)) -
        (listMinQ (l.filter fun y => decide (y ≠ 0)) + 1) < 0 := by linarith
    rw [if_pos h5] at h4
    exact hmne h4.symm
  · intro h
    simp only [shiftDispDownQ, if_pos h]

/-- C8 counterexample: on the finite map [-5, 3] the source subtracts
`(min non-zero + 1) = -4`, yielding [0, 7], while the claim's
`(min strictly-positive + 1) = 4` would yield [0, 0]. -/
theorem C8_shift_disp_down_counterexample :
    shift_disp_down (([(-5 : ℚ), 3]).map FVal.fin) ≠
      .ok ((shiftDispDownClaimed [-5, 3]).map FVal.fin) := by
  have h1 : shift_disp_down (([(-5 : ℚ), 3]).map FVal.fin) = .ok [.fin 0, .fin 7] := by
    norm_num [shift_disp_down, amax, amin, fmax, fmin, fle, flt, feq, fne, fadd, fsub, fneg]
  have h2 : shiftDispDownClaimed [-5, 3] = [0, 0] := by
    norm_num [shiftDispDownClaimed, listMaxQ, listMinQ]
  rw [h1, h2]
  simp only [List.map_cons, List.map_nil]
  intro hc
  exact absurd (Except.ok.inj hc) (by decide)

/-- C8 amended: for every non-empty finite-valued disparity map, the map is
returned unchanged when its maximum is ≤ 0; otherwise `shift_disp_down`
subtracts `(m + 1)` from every pixel and clamps negatives to 0, where `m` is
the minimum non-zero value (not the minimum strictly-positive value). -/
theorem C8_shift_disp_down_amended (l : List ℚ) (hl : l ≠ []) :
    (listMaxQ l ≤ 0 → shift_disp_down (l.map FVal.fin) = .ok (l.map FVal.fin)) ∧
    (0 < listMaxQ l → shift_disp_down (l.map FVal.fin) =
      .ok ((l.map fun x =>
        if x - (listMinQ (l.filter fun y => decide (y ≠ 0)) + 1) < 0 then 0
        else x - (listMinQ (l.filter fun y => decide (y ≠ 0)) + 1)).map FVal.fin)) := by
  constructor
  · intro h
    rw [shift_disp_down_map_fin l hl]
    simp only [shiftDispDownQ, if_pos h]
  · intro h
    rw [shift_disp_down_map_fin l hl]
    simp only [shiftDispDownQ, if_neg (not_le.mpr h)]

/-- Witness for the amended C8 on the map [-5, 3]. -/
theorem C8_shift_disp_down_amended_witness :
    shift_disp_down (([(-5 : ℚ), 3]).map FVal.fin) =
      .ok (([(-5 : ℚ), 3].map fun x =>
        if x - (listMinQ ([(-5 : ℚ), 3].filter fun y => decide (y ≠ 0)) + 1) < 0 then 0
        else x - (listMinQ ([(-5 : ℚ), 3].filter fun y => decide (y ≠ 0)) + 1)).map
          FVal.fin) :=
  (C8_shift_disp_down_amended [-5, 3] (by decide)).2 (by decide)

/-- C9 counterexample: shifting [2, 5] once gives [0, 2]; a second
application gives [0, 0], so the second application is not a no-op. -/
theorem C9_idempotence_counterexample :
    shift_disp_down (([(2 : ℚ), 5]).map FVal.fin) = .ok (([(0 : ℚ), 2]).map FVal.fin) ∧
    (shift_disp_down (([(2 : ℚ), 5]).map FVal.fin)).bind shift_disp_down =
      .ok (([(0 : ℚ), 0]).map FVal.fin) ∧
    (.ok (([(0 : ℚ), 0]).map FVal.fin) : Except String (List FVal)) ≠
      .ok (([(0 : ℚ), 2]).map FVal.fin) := by
  refine ⟨?_, ?_, ?_⟩
  · norm_num [shift_disp_down, amax, amin, fmax, fmin, fle, flt, feq, fne, fadd, fsub, fneg]
  · norm_num [shift_disp_down, amax, amin, fmax, fmin, fle, flt, feq, fne, fadd, fsub, fneg,
      Except.bind]
  · simp only [List.map_cons, List.map_nil]
    intro hc
    exact absurd (Except.ok.inj hc) (by decide)

/-- C9 amended: for every non-empty finite-valued disparity map, a second
application of `shift_disp_down` is a no-op exactly when the first
application leaves no positive disparity (the maximum of the shifted map is
≤ 0); in particular `shift_disp_down` is not idempotent in general. -/
theorem C9_second_application_noop_iff (l : List ℚ) (hl : l ≠ []) :
    (shift_disp_down (l.map FVal.fin)).bind shift_disp_down =
      shift_disp_down (l.map FVal.fin) ↔ listMaxQ (shiftDispDownQ l) ≤ 0 := by
  have h1 := shift_disp_down_map_fin l hl
  have hne := shiftDispDownQ_ne_nil l hl
  have h2 := shift_disp_down_map_fin (shiftDispDownQ l) hne
  rw [h1]
  simp only [Except.bind]
  rw [h2]
  constructor
  · intro h
    have h3 := Except.ok.inj h
    have h4 : shiftDispDownQ (shiftDispDownQ l) = shiftDispDownQ l :=
      List.map_injective_iff.mpr FVal_fin_injective h3
    exact (shiftDispDownQ_eq_self_iff _ hne).mp h4
  · intro h
    have h4 : shiftDispDownQ (shiftDispDownQ l) = shiftDispDownQ l :=
      (shiftDispDownQ_eq_self_iff _ hne).mpr h
    rw [h4]

/-- Witness for the amended C9 on the map [3, 3]: the first application
yields [0, 0], after which the second application is a no-op. -/
theorem C9_second_application_noop_witness :
    (shift_disp_down (([(3 : ℚ), 3]).map FVal.fin)).bind shift_disp_down =
      shift_disp_down (([(3 : ℚ), 3]).map FVal.fin) :=
  (C9_second_application_noop_iff [3, 3] (by decide)).mpr (by
    norm_num [shiftDispDownQ, listMaxQ, listMinQ])

/-- C6: `apply_roi_to_disparity` raises an error exactly when the stored
`validROI1` is absent or does not have exactly 4 components; on success,
every pixel inside the rectangle (x, y, w, h) is bit-identical to the input
and every pixel strictly outside it is exactly 0. -/
theorem C6_apply_roi_spec {α : Type} [Zero α] (st : StereoState α) {H W : ℕ}
    (disparity : Fin H → Fin W → α) :
    ((∃ e, st.apply_roi_to_disparity disparity = .error e) ↔
      (st.params.validROI1 = none ∨
        ∀ r, st.params.validROI1 = some r → r.length ≠ 4)) ∧
    (∀ x y w h out, st.params.validROI1 = some [x, y, w, h] →
      st.apply_roi_to_disparity disparity = .ok out →
      ∀ i j,
        (y ≤ i.val ∧ i.val < y + h ∧ x ≤ j.val ∧ j.val < x + w →
          out i j = disparity i j) ∧
        (¬(y ≤ i.val ∧ i.val < y + h ∧ x ≤ j.val ∧ j.val < x + w) →
          out i j = 0)) := by
  rcases hroi : st.params.validROI1 with _ |
    (_ | ⟨a, _ | ⟨b, _ | ⟨c, _ | ⟨d, _ | ⟨e2, r2⟩⟩⟩⟩⟩)
  · exact ⟨⟨fun _ => Or.inl rfl,
      fun _ => ⟨"Invalid", by simp [StereoState.apply_roi_to_disparity, hroi]⟩⟩,
      fun x y w h out hsome => by cases hsome⟩
  · refine ⟨⟨fun _ => Or.inr ?_,
      fun _ => ⟨"Invalid", by simp [StereoState.apply_roi_to_disparity, hroi]⟩⟩, ?_⟩
    · rintro r2 hr2
      injection hr2 with hr2
      subst hr2
      simp
    · intro x y w h out hsome
      injection hsome with h2
      simp at h2
  · refine ⟨⟨fun _ => Or.inr ?_,
      fun _ => ⟨"Invalid", by simp [StereoState.apply_roi_to_disparity, hroi]⟩⟩, ?_⟩
    · rintro r2 hr2
      injection hr2 with hr2
      subst hr2
      simp
    · intro x y w h out hsome
      injection hsome with h2
      simp at h2
  · refine ⟨⟨fun _ => Or.inr ?_,
      fun _ => ⟨"Invalid", by simp [StereoState.apply_roi_to_disparity, hroi]⟩⟩, ?_⟩
    · rintro r2 hr2
      injection hr2 with hr2
      subst hr2
      simp
    · intro x y w h out hsome
      injection hsome with h2
      simp at h2
  · refine ⟨⟨fun _ => Or.inr ?_,
      fun _ => ⟨"Invalid", by simp [StereoState.apply_roi_to_disparity, hroi]⟩⟩, ?_⟩
    · rintro r2 hr2
      injection hr2 with hr2
      subst hr2
      simp
    · intro x y w h out hsome
      injection hsome with h2
      simp at h2
  · have happ : st.apply_roi_to_disparity disparity =
        .ok (sliceAssign (npZeros H W) disparity b d a c) := by
      simp [StereoState.apply_roi_to_disparity, hroi]
    constructor
    · constructor
      · rintro ⟨e, he⟩
        rw [happ] at he
        cases he
      · rintro (hnone | hlen)
        · cases hnone
        · have h4 := hlen [a, b, c, d] rfl
          simp at h4
    · intro x y w h out hsome heq
      injection hsome with h2
      obtain ⟨rfl, rfl, rfl, rfl⟩ : a = x ∧ b = y ∧ c = w ∧ d = h := by
        simpa using h2
      rw [happ] at heq
      injection heq with heq
      subst heq
      intro i j
      constructor
      · intro hin
        simp [sliceAssign, hin]
      · intro hout
        simp only [sliceAssign, npZeros, if_neg hout]
  · refine ⟨⟨fun _ => Or.inr ?_,
      fun _ => ⟨"Invalid", by simp [StereoState.apply_roi_to_disparity, hroi]⟩⟩, ?_⟩
    · rintro r3 hr3
      injection hr3 with hr3
      subst hr3
      simp
    · intro x y w h out hsome
      injection hsome with h2
      simp at h2

/-- Witness for C6 on a concrete 2×2 image with the stored ROI
[x=0, y=0, w=1, h=1]: the inside pixel (0,0) is preserved and the outside
pixel (1,1) is zeroed. -/
theorem C6_apply_roi_spec_witness :
    sliceAssign (npZeros 2 2) disp0 0 1 0 1 0 0 = disp0 0 0 ∧
    sliceAssign (npZeros 2 2) disp0 0 1 0 1 1 1 = 0 :=
  ⟨((C6_apply_roi_spec stateRoi0 disp0).2 0 0 1 1 _ rfl rfl 0 0).1 (by decide),
   ((C6_apply_roi_spec stateRoi0 disp0).2 0 0 1 1 _ rfl rfl 1 1).2 (by decide)⟩

/-- C4: `StereoProcessor` construction fails with the configuration-mismatch
error exactly when the two calibrations disagree on image width, image
height or camera model; when all three agree this check passes (any failure
is then the unsupported-model error, never the mismatch error). -/
theorem C4_config_mismatch_iff {α : Type} [Field α]
    (rodrigues : (Fin 3 → α) → Matrix (Fin 3) (Fin 3) α)
    (pp : StereoParams α) (fp : FisheyeRectifyResult α)
    (cl cr : Calibration α) :
    mkStereoProcessor rodrigues pp fp cl cr = .error .configMismatch ↔
      (cl.image_width ≠ cr.image_width ∨ cl.image_height ≠ cr.image_height ∨
        cl.camera_model ≠ cr.camera_model) := by
  unfold mkStereoProcessor
  by_cases hc : (cl.image_width ≠ cr.image_width ∨ cl.image_height ≠ cr.image_height ∨
      cl.camera_model ≠ cr.camera_model)
  · rw [if_pos hc]
    simp [hc]
  · rw [if_neg hc]
    push_neg at hc
    simp only [hc.1, hc.2.1, hc.2.2]
    cases hcm : cr.camera_model <;>
      simp [hcm, hc.1, hc.2.1, hc.2.2.trans hcm]

/-- Witness for C4: a pair of calibrations whose image widths differ (640
versus 800) is rejected with the mismatch error. -/
theorem C4_config_mismatch_iff_witness :
    mkStereoProcessor rodriguesId params0 fisheye0 calibL0 calibBad0 =
      .error .configMismatch :=
  (C4_config_mismatch_iff rodriguesId params0 fisheye0 calibL0 calibBad0).mpr
    (by decide)

/-- C5: for every calibration pair agreeing on size and model whose shared
camera-model tag is neither OpenCV (pinhole) nor OpenCVFisheye, construction
raises the unsupported-model error instead of silently defaulting. -/
theorem C5_unsupported_model {α : Type} [Field α]
    (rodrigues : (Fin 3 → α) → Matrix (Fin 3) (Fin 3) α)
    (pp : StereoParams α) (fp : FisheyeRectifyResult α)
    (cl cr : Calibration α)
    (hw : cl.image_width = cr.image_width)
    (hh : cl.image_height = cr.image_height)
    (hm : cl.camera_model = cr.camera_model)
    (h1 : cl.camera_model ≠ .OpenCV)
    (h2 : cl.camera_model ≠ .OpenCVFisheye) :
    mkStereoProcessor rodrigues pp fp cl cr = .error .unsupportedModel := by
  unfold mkStereoProcessor
  rw [if_neg (by simp [hw, hh, hm])]
  rcases hcm : cl.camera_model with _ | _ | tag
  · exact absurd hcm h1
  · exact absurd hcm h2
  · simp [hcm]

/-- Witness for C5: a pair sharing the unsupported tag "Generic" with equal
sizes is rejected with the unsupported-model error. -/
theorem C5_unsupported_model_witness :
    mkStereoProcessor rodriguesId params0 fisheye0 calibGenL0 calibGenR0 =
      .error .unsupportedModel :=
  C5_unsupported_model rodriguesId params0 fisheye0 calibGenL0 calibGenR0
    rfl rfl rfl (by decide) (by decide)

/-- C1: whenever construction succeeds, the stored relative pose satisfies
`R = inverse(R_left) * R_right` and
`T = R_left^T * tvec_right - R_left^T * tvec_left`, where `R_left` and
`R_right` are the rotation matrices the Rodrigues conversion yields from the
two cameras' axis-angle rotation vectors. -/
theorem C1_relative_pose {α : Type} [Field α]
    (rodrigues : (Fin 3 → α) → Matrix (Fin 3) (Fin 3) α)
    (pp : StereoParams α) (fp : FisheyeRectifyResult α)
    (cl cr : Calibration α) (st : StereoState α)
    (h : mkStereoProcessor rodrigues pp fp cl cr = .ok st) :
    st.R = (rodrigues cl.rvec)⁻¹ * rodrigues cr.rvec ∧
    st.T = (rodrigues cl.rvec).transpose.mulVec cr.tvec -
      (rodrigues cl.rvec).transpose.mulVec cl.tvec := by
  unfold mkStereoProcessor at h
  by_cases hc : (cl.image_width ≠ cr.image_width ∨ cl.image_height ≠ cr.image_height ∨
      cl.camera_model ≠ cr.camera_model)
  · rw [if_pos hc] at h
    cases h
  · rw [if_neg hc] at h
    rcases hcm : cl.camera_model with _ | _ | tag
    · rw [hcm] at h
      simp only [] at h
      injection h with h
      subst h
      exact ⟨by rw [← matInv_eq_inv], rfl⟩
    · rw [hcm] at h
      simp only [] at h
      injection h with h
      subst h
      exact ⟨by rw [← matInv_eq_inv], rfl⟩
    · rw [hcm] at h
      simp only [] at h
      exact Except.noConfusion h

/-- Witness for C1: the concrete pinhole pair with identity Rodrigues
conversion and a 100mm horizontal translation. -/
theorem C1_relative_pose_witness :
    mkStereoProcessor rodriguesId params0 fisheye0 calibL0 calibR0 = .ok state0 ∧
    (state0.R = (rodriguesId calibL0.rvec)⁻¹ * rodriguesId calibR0.rvec ∧
     state0.T = (rodriguesId calibL0.rvec).transpose.mulVec calibR0.tvec -
       (rodriguesId calibL0.rvec).transpose.mulVec calibL0.tvec) :=
  ⟨rfl, C1_relative_pose rodriguesId params0 fisheye0 calibL0 calibR0 state0 rfl⟩

theorem chunk3_length {α : Type} : ∀ l : List α, (chunk3 l).length = l.length / 3
  | [] => by simp [chunk3]
  | [_] => by simp [chunk3]
  | [_, _] => by simp [chunk3]
  | _ :: _ :: _ :: rest => by
    have ih := chunk3_length rest
    simp only [chunk3, List.length_cons, ih]
    omega

/-- C2: `disparity_to_depth_mm d` is exactly
`baseline_mm * focallength_px / (d + doffs)` with `doffs = 0`, and the
`baseline_mm` property is the Euclidean norm of the derived relative
translation `T`. -/
theorem C2_depth_formula (st : StereoState ℝ) (d : ℝ) :
    st.disparity_to_depth_mm d =
      st.baseline_mm * st.calibration_left.focallength_px / (d + 0) ∧
    st.baseline_mm = ‖(WithLp.equiv 2 (Fin 3 → ℝ)).symm st.T‖ := by
  refine ⟨rfl, ?_⟩
  rw [EuclideanSpace.norm_eq]
  simp only [WithLp.equiv_symm_pi_apply, Real.norm_eq_abs, sq_abs, Fin.sum_univ_three]
  rfl

/-- Sanity example from the spec: a pure 100mm horizontal translation has a
baseline of exactly 100mm. -/
theorem baseline_mm_pure_translation : stateR.baseline_mm = 100 := by
  show Real.sqrt ((![(100 : ℝ), 0, 0]) 0 ^ 2 + (![(100 : ℝ), 0, 0]) 1 ^ 2 +
    (![(100 : ℝ), 0, 0]) 2 ^ 2) = 100
  norm_num [Matrix.cons_val_zero, Matrix.cons_val_one, Matrix.head_cons]
  rw [show (10000 : ℝ) = 100 ^ 2 by norm_num, Real.sqrt_sq (by norm_num : (0:ℝ) ≤ 100)]

/-- C3: `points_px_to_3d_world_space` succeeds exactly on inputs whose
flattened size is divisible by 3 (an Nx3-convertible array), raising a
validation error otherwise; on success it returns one output point per input
(u, v, d) triple, in order, with `z = disparity_to_depth_mm d`,
`x = (u - cx)/fx * z`, `y = (v - cy)/fy * z`, using the left camera's
intrinsics only. -/
theorem C3_points_px_to_3d_spec (st : StereoState ℝ) (l : List ℝ) :
    (3 ∣ l.length →
      st.points_px_to_3d_world_space l = .ok ((chunk3 l).map fun point =>
        ((point.1 - st.calibration_left.cameraMatrix 0 2) /
            st.calibration_left.cameraMatrix 0 0 * st.disparity_to_depth_mm point.2.2,
         (point.2.1 - st.calibration_left.cameraMatrix 1 2) /
            st.calibration_left.cameraMatrix 1 1 * st.disparity_to_depth_mm point.2.2,
         st.disparity_to_depth_mm point.2.2))) ∧
    (∀ out, st.points_px_to_3d_world_space l = .ok out → out.length = l.length / 3) ∧
    (¬3 ∣ l.length → ∃ e, st.points_px_to_3d_world_space l = .error e) := by
  by_cases hdvd : 3 ∣ l.length
  · have hmod : l.length % 3 = 0 := by omega
    have hok : st.points_px_to_3d_world_space l = .ok ((chunk3 l).map fun point =>
        ((point.1 - st.calibration_left.cameraMatrix 0 2) /
            st.calibration_left.cameraMatrix 0 0 * st.disparity_to_depth_mm point.2.2,
         (point.2.1 - st.calibration_left.cameraMatrix 1 2) /
            st.calibration_left.cameraMatrix 1 1 * st.disparity_to_depth_mm point.2.2,
         st.disparity_to_depth_mm point.2.2)) := by
      unfold StereoState.points_px_to_3d_world_space
      rw [if_pos hmod]
    refine ⟨fun _ => hok, ?_, fun hn => absurd hdvd hn⟩
    intro out hout
    rw [hok] at hout
    injection hout with hout
    subst hout
    rw [List.length_map, chunk3_length]
  · have hmod : ¬(l.length % 3 = 0) := by omega
    have herr : st.points_px_to_3d_world_space l =
        .error ("cannot reshape array into shape (-1,1,3)") := by
      unfold StereoState.points_px_to_3d_world_space
      rw [if_neg hmod]
    refine ⟨fun hd => absurd hd hdvd, ?_, fun _ => ⟨_, herr⟩⟩
    intro out hout
    rw [herr] at hout
    cases hout

/-- Witness for C3: the single point (u, v, d) = (1, 2, 3) in the concrete
identity-intrinsics state. -/
theorem C3_points_px_to_3d_spec_witness :
    stateR.points_px_to_3d_world_space [1, 2, 3] =
      .ok ((chunk3 [(1 : ℝ), 2, 3]).map fun point =>
        ((point.1 - stateR.calibration_left.cameraMatrix 0 2) /
            stateR.calibration_left.cameraMatrix 0 0 * stateR.disparity_to_depth_mm point.2.2,
         (point.2.1 - stateR.calibration_left.cameraMatrix 1 2) /
            stateR.calibration_left.cameraMatrix 1 1 * stateR.disparity_to_depth_mm point.2.2,
         stateR.disparity_to_depth_mm point.2.2)) :=
  (C3_points_px_to_3d_spec stateR [1, 2, 3]).1 (by decide)
